import Mathlib

/-!
# Verification of the `ElasticsearchStorage` benchmark-result adapter

A shallow embedding of `src/pytest_benchmark/elasticsearch_storage.py`.

The adapter stores one flat document per benchmark measurement in an external
search engine, and reads them back grouped into runs:

* `benchmark_from_es_record`, `run_info_from_es_record` : field projections
  from a stored source document;
* `group_by_commit_and_time` : the left fold over search hits that groups
  benchmarks by the key `commit_info.id ++ "_" ++ datetime`;
* `strptime` : the datetime parser for the fixed format
  `%Y-%m-%dT%H:%M:%S.%f` (CPython `datetime.strptime` semantics: four-digit
  year, one-or-two-digit month/day/hour/minute/second with range validation,
  one-to-six-digit fraction right-padded to microseconds, whole string
  consumed; parse failure models the `ValueError` raised by Python);
* `searchBody` : the JSON search request the adapter builds;
* `engineSearch` : the external engine, modelled from the spec;
* `Store`, `storeInit`, `save`, `query`, `load`, `load_benchmarks` : the
  adapter class, its constructor and its public operations.  Methods are
  embedded in state-passing style (each returns its result together with the
  post-state of the object); generators are embedded as the list of values
  they yield, with `Option` `none` standing for an uncaught exception raised
  before the first value is yielded.
-/

namespace ESBench

/-- Commit metadata inside a stored source document (`commit_info`). -/
structure CommitInfo where
  id : String
  project : String
  dirty : Bool
deriving DecidableEq

/-- A stored source document (`hit["_source"]`): one flat record per
benchmark measurement.  Fields whose internal structure the adapter never
inspects are kept as opaque strings. -/
structure Source where
  commit_info : CommitInfo
  datetime : String
  machine_info : String
  version : String
  group : String
  stats : String
  options : String
  param : String
  name : String
  params : String
  fullname : String
deriving DecidableEq

/-- A search hit: the stored document identifier (`hit["_id"]`) and the
source document (`hit["_source"]`). -/
structure Hit where
  id : String
  source : Source
deriving DecidableEq

/-- The benchmark sub-record built by `_benchmark_from_es_record`. -/
structure Benchmark where
  group : String
  stats : String
  options : String
  param : String
  name : String
  params : String
  fullname : String
deriving DecidableEq

/-- A run record: the dict built by `_run_info_from_es_record`, to which the
grouping loop adds the `"benchmarks"` list. -/
structure RunInfo where
  machine_info : String
  commit_info : CommitInfo
  datetime : String
  version : String
  benchmarks : List Benchmark
deriving DecidableEq

/-- `_benchmark_from_es_record`: copy the seven benchmark keys. -/
def benchmark_from_es_record (s : Source) : Benchmark :=
  { group := s.group, stats := s.stats, options := s.options, param := s.param,
    name := s.name, params := s.params, fullname := s.fullname }

/-- `_run_info_from_es_record`: copy the four run keys (the caller then sets
the `benchmarks` list, modelled here as the empty list until it does). -/
def run_info_from_es_record (s : Source) : RunInfo :=
  { machine_info := s.machine_info, commit_info := s.commit_info,
    datetime := s.datetime, version := s.version, benchmarks := [] }

/-- The grouping key `"%s_%s" % (source_hit["commit_info"]["id"],
source_hit["datetime"])`. -/
def hitKey (h : Hit) : String :=
  h.source.commit_info.id ++ "_" ++ h.source.datetime

/-- Body of the grouping loop of `_group_by_commit_and_time`: one iteration
over one hit, updating the (insertion-ordered) dict of runs, embedded as an
association list. -/
def groupStep (result : List (String × RunInfo)) (hit : Hit) : List (String × RunInfo) :=
  let key := hitKey hit
  let benchmark := benchmark_from_es_record hit.source
  if key ∈ result.map Prod.fst then
    result.map (fun kv =>
      if kv.1 = key then
        (kv.1, { kv.2 with benchmarks := kv.2.benchmarks ++ [benchmark] })
      else kv)
  else
    result ++ [(key, { run_info_from_es_record hit.source with benchmarks := [benchmark] })]

/-- `_group_by_commit_and_time(hits)`: fold the loop over the hit list,
starting from the empty dict. -/
def group_by_commit_and_time (hits : List Hit) : List (String × RunInfo) :=
  hits.foldl groupStep []

/-! ## The datetime parser (`datetime.datetime.strptime`) -/

/-- A parsed datetime value. -/
structure Datetime where
  year : Nat
  month : Nat
  day : Nat
  hour : Nat
  minute : Nat
  second : Nat
  microsecond : Nat
deriving DecidableEq, Inhabited

/-- Mixed-radix encoding of a datetime.  On parser outputs every field below
`year` is `< 100` (microseconds `< 10 ^ 6`), so comparing encodings is the
chronological (lexicographic field-by-field) comparison that Python uses on
`datetime` objects. -/
def Datetime.toNat (d : Datetime) : Nat :=
  ((((((d.year * 100 + d.month) * 100 + d.day) * 100 + d.hour) * 100 + d.minute) * 100
      + d.second) * 1000000) + d.microsecond

/-- Take at most `n` leading decimal digits from a character list. -/
def takeDigits : Nat → List Char → List Char × List Char
  | 0, cs => ([], cs)
  | _ + 1, [] => ([], [])
  | n + 1, c :: cs =>
    if c.isDigit then
      let (ds, rest) := takeDigits n cs
      (c :: ds, rest)
    else ([], c :: cs)

/-- Numeric value of a digit string. -/
def digitsVal (ds : List Char) : Nat :=
  ds.foldl (fun acc c => acc * 10 + (c.toNat - 48)) 0

/-- Consume one expected literal character. -/
def expectChar (c : Char) : List Char → Option (List Char)
  | [] => none
  | x :: xs => if x = c then some xs else none

/-- Gregorian leap-year rule (as in `datetime`). -/
def isLeapYear (y : Nat) : Bool :=
  (y % 4 == 0 && y % 100 != 0) || y % 400 == 0

/-- Number of days of month `m` of year `y` (as validated by the `datetime`
constructor). -/
def daysInMonth (y m : Nat) : Nat :=
  if m == 2 then (if isLeapYear y then 29 else 28)
  else if m == 4 || m == 6 || m == 9 || m == 11 then 30
  else 31

/-- Parse a numeric field of at most `maxLen` digits, requiring at least one
digit and a value within `[lo, hi]` (the range the CPython format regex and
the `datetime` constructor jointly enforce). -/
def pNum (maxLen lo hi : Nat) (cs : List Char) : Option (Nat × List Char) :=
  let (ds, rest) := takeDigits maxLen cs
  if ds.isEmpty then none
  else
    let v := digitsVal ds
    if lo ≤ v ∧ v ≤ hi then some (v, rest) else none

/-- Parse the `%Y` field: exactly four digits, year at least 1. -/
def pYear (cs : List Char) : Option (Nat × List Char) :=
  let (ds, rest) := takeDigits 4 cs
  if ds.length = 4 then
    let v := digitsVal ds
    if 1 ≤ v then some (v, rest) else none
  else none

/-- Parse the `%f` field: one to six digits, right-padded to microseconds. -/
def pFrac (cs : List Char) : Option (Nat × List Char) :=
  let (ds, rest) := takeDigits 6 cs
  if ds.isEmpty then none
  else some (digitsVal ds * 10 ^ (6 - ds.length), rest)

/-- `datetime.datetime.strptime(s, "%Y-%m-%dT%H:%M:%S.%f")`.  `none` models
the `ValueError` Python raises on a string that does not match the format or
whose field values the `datetime` constructor rejects (including a day out
of range for the parsed month, and the whole string not being consumed). -/
def strptime (s : String) : Option Datetime :=
  (pYear s.data).bind fun yr =>
  (expectChar '-' yr.2).bind fun r2 =>
  (pNum 2 1 12 r2).bind fun mo =>
  (expectChar '-' mo.2).bind fun r4 =>
  (pNum 2 1 (daysInMonth yr.1 mo.1) r4).bind fun dy =>
  (expectChar 'T' dy.2).bind fun r6 =>
  (pNum 2 0 23 r6).bind fun hr =>
  (expectChar ':' hr.2).bind fun r8 =>
  (pNum 2 0 59 r8).bind fun mi =>
  (expectChar ':' mi.2).bind fun r10 =>
  (pNum 2 0 59 r10).bind fun sc =>
  (expectChar '.' sc.2).bind fun r12 =>
  (pFrac r12).bind fun us =>
  if us.2.isEmpty then
    some { year := yr.1, month := mo.1, day := dy.1, hour := hr.1,
           minute := mi.1, second := sc.1, microsecond := us.1 }
  else none

/-! ## Stable sorting (`list.sort`) -/

/-- Insert an element into a list, in front of the first element it is
`le`-related to. -/
def insertLe (le : α → α → Bool) (a : α) : List α → List α
  | [] => [a]
  | b :: l => if le a b then a :: b :: l else b :: insertLe le a l

/-- Stable ascending insertion sort: the observable behaviour of Python's
stable `list.sort(key=...)` for a total-preorder comparison. -/
def sortLe (le : α → α → Bool) : List α → List α
  | [] => []
  | a :: l => insertLe le a (sortLe le l)

/-- The sort key of `load`: `datetime.datetime.strptime(x[1]["datetime"],
"%Y-%m-%dT%H:%M:%S.%f")`, encoded as a natural number.  `load` only sorts
after every record's datetime has parsed, so the default never matters. -/
def runKey (x : String × RunInfo) : Nat :=
  ((strptime x.2.datetime).getD default).toNat

/-- The body of `load` after the search: group the hits, then sort the
(key, run) pairs ascending by parsed datetime.  `none` models the uncaught
`ValueError` from `strptime` inside the sort, raised before anything is
yielded. -/
def sortedRuns (hits : List Hit) : Option (List (String × RunInfo)) :=
  let groupped_data := group_by_commit_and_time hits
  if groupped_data.all (fun x => (strptime x.2.datetime).isSome) then
    some (sortLe (fun a b => decide (runKey a ≤ runKey b)) groupped_data)
  else none

/-! ## The search request body -/

/-- A JSON value, as the adapter builds its request bodies. -/
inductive Json where
  | str : String → Json
  | num : Nat → Json
  | arr : List Json → Json
  | obj : List (String × Json) → Json

/-- Truthiness of the optional `id_prefix` argument (`if id_prefix:`): only
a present, non-empty string is truthy. -/
def truthy : Option String → Bool
  | none => false
  | some s => !s.isEmpty

/-- The request body built by `_search`: size 1000, sort by `datetime`
descending, a `bool` query with an exact `term` filter on
`commit_info.project`, and — exactly when a truthy `id_prefix` was supplied
— an added `must`/`prefix` clause on `_id`. -/
def searchBody (project : String) ( id_prefix : Option String) : Json :=
  let boolClauses :=
    [("filter", Json.obj [("term", Json.obj [("commit_info.project", Json.str project)])])]
  let boolClauses :=
    match id_prefix with
    | some p => if !p.isEmpty then
        boolClauses ++ [("must", Json.obj [("prefix", Json.obj [("_id", Json.str p)])])]
      else boolClauses
    | none => boolClauses
  Json.obj
    [ ("size", Json.num 1000)
    , ("sort", Json.arr [Json.obj [("datetime", Json.obj [("order", Json.str "desc")])]])
    , ("query", Json.obj [("bool", Json.obj boolClauses)])
    ]

/-- Key lookup in a JSON object. -/
def Json.lookup (j : Json) (key : String) : Option Json :=
  match j with
  | .obj fields => List.lookup key fields
  | _ => none

/-- The `size` bound of a request body. -/
def bodySize (body : Json) : Option Nat :=
  match body.lookup "size" with
  | some (.num n) => some n
  | _ => none

/-- The string value of a JSON value, when it is one. -/
def Json.asStr : Json → Option String
  | .str s => some s
  | _ => none

/-- The exact-match `term` value on `commit_info.project` of a request body. -/
def bodyTermProject (body : Json) : Option String :=
  (body.lookup "query").bind fun q =>
  (q.lookup "bool").bind fun b =>
  (b.lookup "filter").bind fun f =>
  (f.lookup "term").bind fun t =>
  (t.lookup "commit_info.project").bind Json.asStr

/-- The identifier-prefix clause (`must`/`prefix` on `_id`) of a request
body, when present. -/
def bodyIdPfx (body : Json) : Option String :=
  (body.lookup "query").bind fun q =>
  (q.lookup "bool").bind fun b =>
  (b.lookup "must").bind fun m =>
  (m.lookup "prefix").bind fun p =>
  (p.lookup "_id").bind Json.asStr

/-- Whether a request body asks for descending sort on `datetime`. -/
def bodySortDescByDatetime (body : Json) : Bool :=
  match body.lookup "sort" with
  | some (.arr [.obj [(f, .obj [(o, .str ord)])]]) =>
      f == "datetime" && o == "order" && ord == "desc"
  | _ => false

/-- Whether `p` is a prefix of `s`, character by character. -/
def strIsPfxOf (p s : String) : Bool :=
  p.data.isPrefixOf s.data

/-- Sort key the modelled engine uses for a hit's `datetime` field. -/
def hitDtKey (h : Hit) : Nat :=
  ((strptime h.source.datetime).getD default).toNat

/-- Modelled from the spec: the external search-engine server and its client
library are not part of this repository; per the spec, query execution is
delegated entirely to it.  The engine answers a request body with at most
`size` stored hits matching the boolean query — exact match on the `term`
field, and, when a `must`/`prefix` clause is present, identifier-prefix
match — sorted by the requested descending `datetime` order. -/
def engineSearch (stored : List Hit) (body : Json) : List Hit :=
  match bodySize body, bodyTermProject body with
  | some n, some proj =>
    let matched := stored.filter (fun h =>
      h.source.commit_info.project == proj &&
      (match bodyIdPfx body with
       | some p => strIsPfxOf p h.id
       | none => true))
    let ordered :=
      if bodySortDescByDatetime body then
        sortLe (fun a b => decide (hitDtKey b ≤ hitDtKey a)) matched
      else matched
    ordered.take n
  | _, _ => []

/-! ## The store object, its constructor and its public operations -/

/-- The fields the constructor assigns on the store object.  The engine
client handle is represented by the stored hit list being passed to each
operation; `cache` embeds the (never touched) `_cache` dict. -/
structure Store where
  elasticsearch_hosts : List String
  elasticsearch_index : String
  elasticsearch_doctype : String
  default_machine_id : Option String
  logger : String
  cache : List (String × Json)

/-- Outcome of the engine's index-creation attempt: success, or an error
response carrying its HTTP status code and error kind. -/
inductive CreateIndexResult where
  | success
  | error (status : Nat) (reason : String)
deriving DecidableEq

/-- Modelled from the spec: the elasticsearch client library is external to
this repository.  Its `ignore` argument suppresses raising for error
responses with any of the listed HTTP status codes; every other error
response is raised to the caller. -/
def indicesCreate (outcome : CreateIndexResult) (ignoreStatuses : List Nat) :
    Except CreateIndexResult Unit :=
  match outcome with
  | .success => .ok ()
  | .error status reason =>
    if status ∈ ignoreStatuses then .ok () else .error (.error status reason)

/-- `_create_index`: the fixed-mapping creation call with `ignore=400`.
(The mapping body itself is passed through to the engine unchanged and no
claim depends on its contents, so it is not reproduced here.) -/
def create_index (outcome : CreateIndexResult) : Except CreateIndexResult Unit :=
  indicesCreate outcome [400]

/-- The install hint of the constructor's `ImportError`. -/
def installHint : String :=
  "Please install elasticsearch or pytest-benchmark[elasticsearch]"

/-- An error raised by the constructor: the re-raised `ImportError` (with
its argument tuple) or a propagated index-creation error. -/
inductive InitError where
  | importFailure (args : List String)
  | createFailure (e : CreateIndexResult)
deriving DecidableEq

/-- An externally visible action of the constructor. -/
inductive InitEffect where
  | clientConnect (hosts : List String)
  | indexCreate (index : String)
deriving DecidableEq

/-- `__init__`: re-raise a failed client-library import as an `ImportError`
carrying the original arguments and the install hint, before any field
assignment or external call; otherwise assign the fields (with an empty
`_cache`), construct the client, and create the index with `ignore=400`,
propagating any non-ignored creation error.  `importOk` is whether
`import elasticsearch` succeeds, `importErrMsg` the failure's message, and
`createOutcome` the engine's response to the creation call. -/
def storeInit (importOk : Bool) (importErrMsg : String) (hosts : List String)
    (index doctype logger : String) (default_machine_id : Option String)
    (createOutcome : CreateIndexResult) : Except InitError Store × List InitEffect :=
  if importOk then
    let st : Store :=
      { elasticsearch_hosts := hosts, elasticsearch_index := index,
        elasticsearch_doctype := doctype, default_machine_id := default_machine_id,
        logger := logger, cache := [] }
    match create_index createOutcome with
    | .ok () => (.ok st, [.clientConnect hosts, .indexCreate index])
    | .error e => (.error (.createFailure e), [.clientConnect hosts, .indexCreate index])
  else
    (.error (.importFailure [importErrMsg, installHint]), [])

/-- `_search`: build the body and ask the engine.  `stored` is the content
of the engine behind the client handle. -/
def searchES (st : Store) (stored : List Hit) (project : String)
    ( id_prefix : Option String) : List Hit × Store :=
  (engineSearch stored (searchBody project id_prefix), st)

/-- `load(project, id_prefix=None)`: search, group, sort, and yield the
(key, run-record) pairs; `none` models the uncaught exception raised before
the first pair is yielded. -/
def load (st : Store) (stored : List Hit) (project : String)
    ( id_prefix : Option String) : Option (List (String × RunInfo)) × Store :=
  let (hits, st) := searchES st stored project id_prefix
  (sortedRuns hits, st)

/-- `query(project)`: the keys of the pairs `load(project)` yields. -/
def query (st : Store) (stored : List Hit) (project : String) :
    Option (List String) × Store :=
  let (res, st) := load st stored project none
  (res.map (fun l => l.map Prod.fst), st)

/-- `load_benchmarks(project)`: one benchmark sub-record per hit, in the
engine's result order. -/
def load_benchmarks (st : Store) (stored : List Hit) (project : String) :
    List Benchmark × Store :=
  let (hits, st) := searchES st stored project none
  (hits.map (fun h => benchmark_from_es_record h.source), st)

/-- The engine call made by `save`. -/
structure IndexCall where
  index : String
  doc_type : String
  body : Json
  id : String

/-- `save(document, document_id)`: pass the document through to the engine's
index call under the configured index and doc-type and the given id. -/
def save (st : Store) (document : Json) (document_id : String) : IndexCall × Store :=
  ({ index := st.elasticsearch_index, doc_type := st.elasticsearch_doctype,
     body := document, id := document_id }, st)

/-! ## Reference views used to state and prove the grouping properties -/

/-- The grouping fold, presented as a recursion on the hit list: the first
hit opens its run with the benchmarks of every later hit sharing its key,
and the remaining hits are grouped recursively.  `foldl_groupStep` proves
this equal to `group_by_commit_and_time`. -/
def groupRec : List Hit → List (String × RunInfo)
  | [] => []
  | h :: t =>
    (hitKey h,
      { run_info_from_es_record h.source with
        benchmarks := benchmark_from_es_record h.source ::
          (t.filter (fun x => hitKey x = hitKey h)).map
            (fun x => benchmark_from_es_record x.source) })
      :: groupRec (t.filter (fun x => hitKey x ≠ hitKey h))
termination_by l => l.length
decreasing_by
  simp only [List.length_cons]
  exact Nat.lt_succ_of_le (List.length_filter_le _ _)

/-- First-occurrence deduplication of a key list: the insertion order of the
grouping dict's keys. -/
def dedupKeys : List String → List String
  | [] => []
  | k :: l => k :: dedupKeys (l.filter (fun x => x ≠ k))
termination_by l => l.length
decreasing_by
  simp only [List.length_cons]
  exact Nat.lt_succ_of_le (List.length_filter_le _ _)

/-- Append to an existing run entry the benchmarks of all hits of `hits`
that carry its key; used to state the grouping fold's invariant. -/
def addBench (hits : List Hit) (kv : String × RunInfo) : String × RunInfo :=
  (kv.1, { kv.2 with benchmarks :=
      (kv.2.benchmarks ++ (hits.filter (fun x => hitKey x = kv.1)).map
        (fun x => benchmark_from_es_record x.source)) })

/-! ## Concrete fixtures for the evaluation theorems -/

/-- A source document with the given commit id, project, datetime string,
machine info and benchmark name. -/
def mkSource (ci proj dt mi nm : String) : Source :=
  { commit_info := { id := ci, project := proj, dirty := false },
    datetime := dt, machine_info := mi, version := "1",
    group := "g", stats := "s", options := "o", param := "q",
    name := nm, params := "ps", fullname := "f" }

/-- A concrete store. -/
def wStore : Store :=
  { elasticsearch_hosts := ["localhost"], elasticsearch_index := "bench",
    elasticsearch_doctype := "benchmark", default_machine_id := none,
    logger := "log", cache := [] }

/-- A hit dated Jan 2. -/
def wHitA : Hit := { id := "abc_1", source := mkSource "abc" "proj" "2020-01-02T00:00:00.0" "m1" "n1" }

/-- A hit dated Jan 1. -/
def wHitB : Hit := { id := "abc_2", source := mkSource "abc" "proj" "2020-01-01T00:00:00.0" "m1" "n2" }

/-- A hit sharing `wHitB`'s key but with different machine info. -/
def wHitC : Hit := { id := "abc_3", source := mkSource "abc" "proj" "2020-01-01T00:00:00.0" "m2" "n3" }

/-- Three stored hits spanning two distinct commit+datetime keys. -/
def wHits : List Hit := [wHitA, wHitB, wHitC]

/-- A stored hit whose datetime string does not match the format. -/
def wBadHit : Hit := { id := "bad_1", source := mkSource "abc" "proj" "not-a-date" "m1" "n1" }

/-- The benchmark sub-record of a fixture source named `nm`. -/
def wBench (nm : String) : Benchmark :=
  { group := "g", stats := "s", options := "o", param := "q",
    name := nm, params := "ps", fullname := "f" }

/-- The run grouped from `wHitA` alone. -/
def wRunA : RunInfo :=
  { machine_info := "m1", commit_info := { id := "abc", project := "proj", dirty := false },
    datetime := "2020-01-02T00:00:00.0", version := "1", benchmarks := [wBench "n1"] }

/-- The run merged from `wHitB` and `wHitC`: metadata of `wHitB`, benchmarks
of both. -/
def wRunBC : RunInfo :=
  { machine_info := "m1", commit_info := { id := "abc", project := "proj", dirty := false },
    datetime := "2020-01-01T00:00:00.0", version := "1",
    benchmarks := [wBench "n2", wBench "n3"] }

/-- What `load` yields on `wHits`: two runs, ascending by datetime. -/
def wLoaded : List (String × RunInfo) :=
  [("abc_2020-01-01T00:00:00.0", wRunBC), ("abc_2020-01-02T00:00:00.0", wRunA)]

/-- The run grouped from `wBadHit` alone. -/
def wBadRun : RunInfo :=
  { machine_info := "m1", commit_info := { id := "abc", project := "proj", dirty := false },
    datetime := "not-a-date", version := "1", benchmarks := [wBench "n1"] }

/-! ## Lemmas about the stable insertion sort -/

theorem perm_insertLe (le : α → α → Bool) (a : α) (l : List α) :
    (insertLe le a l).Perm (a :: l) := by
  induction l with
  | nil => simp [insertLe]
  | cons b t ih =>
    cases hab : le a b with
    | true => simp [insertLe, hab]
    | false =>
      simp only [insertLe, hab, Bool.false_eq_true, if_false]
      exact (ih.cons b).trans (List.Perm.swap a b t)

theorem perm_sortLe (le : α → α → Bool) (l : List α) : (sortLe le l).Perm l := by
  induction l with
  | nil => simp [sortLe]
  | cons a t ih => exact (perm_insertLe le a (sortLe le t)).trans (ih.cons a)

theorem pairwise_insertLe (le : α → α → Bool)
    (htr : ∀ a b c, le a b = true → le b c = true → le a c = true)
    (hto : ∀ a b, le a b = true ∨ le b a = true)
    (a : α) (l : List α) (hl : l.Pairwise (fun x y => le x y = true)) :
    (insertLe le a l).Pairwise (fun x y => le x y = true) := by
  induction l with
  | nil => simp [insertLe]
  | cons b t ih =>
    rcases List.pairwise_cons.mp hl with ⟨hb, ht⟩
    cases hab : le a b with
    | true =>
      simp only [insertLe, hab, if_true]
      refine List.pairwise_cons.mpr ⟨?_, hl⟩
      intro x hx
      rcases List.mem_cons.mp hx with rfl | hx
      · exact hab
      · exact htr a b x hab (hb x hx)
    | false =>
      simp only [insertLe, hab, Bool.false_eq_true, if_false]
      refine List.pairwise_cons.mpr ⟨?_, ih ht⟩
      intro x hx
      rcases List.mem_cons.mp ((perm_insertLe le a t).mem_iff.mp hx) with hax | hx
      · rw [hax]; exact (hto a b).resolve_left (by simp [hab])
      · exact hb x hx

theorem pairwise_sortLe (le : α → α → Bool)
    (htr : ∀ a b c, le a b = true → le b c = true → le a c = true)
    (hto : ∀ a b, le a b = true ∨ le b a = true)
    (l : List α) : (sortLe le l).Pairwise (fun x y => le x y = true) := by
  induction l with
  | nil => simp [sortLe]
  | cons a t ih => exact pairwise_insertLe le htr hto a _ ih

/-! ## Lemmas about the grouping fold -/

theorem groupRec_nil : groupRec [] = [] := by
  rw [groupRec]

theorem groupRec_cons (h : Hit) (t : List Hit) :
    groupRec (h :: t) =
      (hitKey h,
        { run_info_from_es_record h.source with
          benchmarks := benchmark_from_es_record h.source ::
            (t.filter (fun x => hitKey x = hitKey h)).map
              (fun x => benchmark_from_es_record x.source) })
        :: groupRec (t.filter (fun x => hitKey x ≠ hitKey h)) := by
  rw [groupRec]

theorem dedupKeys_nil : dedupKeys [] = [] := by
  rw [dedupKeys]

theorem dedupKeys_cons (k : String) (l : List String) :
    dedupKeys (k :: l) = k :: dedupKeys (l.filter (fun x => x ≠ k)) := by
  rw [dedupKeys]

theorem addBench_nil (kv : String × RunInfo) : addBench [] kv = kv := by
  show (kv.1, { kv.2 with benchmarks := kv.2.benchmarks ++ [] }) = kv
  rw [List.append_nil]

/-- The invariant of the grouping loop: folding `groupStep` over `hits`
starting from `acc` extends each existing entry of `acc` with the
benchmarks of the hits carrying its key, and appends the recursively
grouped runs of the hits whose key is new. -/
theorem foldl_groupStep (hits : List Hit) (acc : List (String × RunInfo)) :
    hits.foldl groupStep acc =
      acc.map (addBench hits) ++
        groupRec (hits.filter (fun x => hitKey x ∉ acc.map Prod.fst)) := by
  induction hits generalizing acc with
  | nil =>
    have hmapid : List.map (addBench []) acc = acc :=
      (List.map_congr_left (fun kv _ => addBench_nil kv)).trans (List.map_id' acc)
    simp [hmapid, groupRec_nil]
  | cons h t ih =>
    rw [List.foldl_cons]
    by_cases hk : hitKey h ∈ acc.map Prod.fst
    · have hstep : groupStep acc h = acc.map (fun kv =>
          if kv.1 = hitKey h then
            (kv.1, { kv.2 with benchmarks :=
              (kv.2.benchmarks ++ [benchmark_from_es_record h.source]) })
          else kv) := by
        simp only [groupStep]
        rw [if_pos hk]
      rw [hstep, ih]
      have hfst : (acc.map (fun kv =>
          if kv.1 = hitKey h then
            (kv.1, { kv.2 with benchmarks :=
              (kv.2.benchmarks ++ [benchmark_from_es_record h.source]) })
          else kv)).map Prod.fst = acc.map Prod.fst := by
        rw [List.map_map]
        apply List.map_congr_left
        intro kv _
        by_cases hkv : kv.1 = hitKey h <;> simp [hkv]
      rw [hfst]
      have hmap : (acc.map (fun kv =>
          if kv.1 = hitKey h then
            (kv.1, { kv.2 with benchmarks :=
              (kv.2.benchmarks ++ [benchmark_from_es_record h.source]) })
          else kv)).map (addBench t) = acc.map (addBench (h :: t)) := by
        rw [List.map_map]
        apply List.map_congr_left
        intro kv _
        by_cases hkv : kv.1 = hitKey h
        · simp only [Function.comp_apply, if_pos hkv, addBench]
          rw [List.filter_cons_of_pos (by simp [hkv])]
          simp [List.append_assoc]
        · simp only [Function.comp_apply, if_neg hkv, addBench]
          rw [List.filter_cons_of_neg
            (by simp only [decide_eq_true_eq]; exact fun he => hkv he.symm)]
      rw [hmap]
      rw [List.filter_cons_of_neg (by simp [hk])]
    · have hstep : groupStep acc h = acc ++
          [(hitKey h, { run_info_from_es_record h.source with
              benchmarks := [benchmark_from_es_record h.source] })] := by
        simp only [groupStep]
        rw [if_neg hk]
      rw [hstep, ih]
      rw [List.filter_cons_of_pos (p := fun x => decide (hitKey x ∉ acc.map Prod.fst))
        (by simp [hk])]
      rw [groupRec_cons]
      rw [List.map_append]
      have hf3 : ((t.filter (fun x => hitKey x ∉ acc.map Prod.fst)).filter
            (fun x => hitKey x = hitKey h))
          = t.filter (fun x => hitKey x = hitKey h) := by
        rw [List.filter_filter]
        apply List.filter_congr
        intro x _
        by_cases hxk : hitKey x = hitKey h <;> simp [hxk, hk]
      have hf4 : ((t.filter (fun x => hitKey x ∉ acc.map Prod.fst)).filter
            (fun x => hitKey x ≠ hitKey h))
          = t.filter (fun x => hitKey x ∉
              (acc ++ [(hitKey h, { run_info_from_es_record h.source with
                  benchmarks := [benchmark_from_es_record h.source] })]).map Prod.fst) := by
        rw [List.filter_filter]
        apply List.filter_congr
        intro x _
        by_cases hxa : hitKey x ∈ acc.map Prod.fst <;>
          by_cases hxk : hitKey x = hitKey h <;>
            simp [hxa, hxk]
      rw [hf3, hf4]
      have hf1 : acc.map (addBench t) = acc.map (addBench (h :: t)) := by
        apply List.map_congr_left
        intro kv hkv
        have hne : ¬hitKey h = kv.1 := by
          intro he
          exact hk (by rw [he]; exact List.mem_map_of_mem Prod.fst hkv)
        simp only [addBench]
        rw [List.filter_cons_of_neg (by simp [hne])]
      have hf2 : [(hitKey h, { run_info_from_es_record h.source with
            benchmarks := [benchmark_from_es_record h.source] })].map (addBench t)
          = [(hitKey h, { run_info_from_es_record h.source with
              benchmarks := benchmark_from_es_record h.source ::
                (t.filter (fun x => hitKey x = hitKey h)).map
                  (fun x => benchmark_from_es_record x.source) })] := by
        simp [addBench]
      rw [hf1, hf2, List.append_assoc, List.singleton_append]

theorem group_eq_groupRec (hits : List Hit) :
    group_by_commit_and_time hits = groupRec hits := by
  have h := foldl_groupStep hits []
  simpa [group_by_commit_and_time] using h

theorem map_hitKey_filter_ne (t : List Hit) (k : String) :
    (t.filter (fun x => hitKey x ≠ k)).map hitKey
      = (t.map hitKey).filter (fun s => s ≠ k) := by
  induction t with
  | nil => simp
  | cons a t ih =>
    by_cases hak : hitKey a = k
    · rw [List.filter_cons_of_neg (by simp [hak]), List.map_cons,
        List.filter_cons_of_neg (by simp [hak]), ih]
    · rw [List.filter_cons_of_pos (by simp [hak]), List.map_cons, List.map_cons,
        List.filter_cons_of_pos (by simp [hak]), ih]

theorem groupRec_keys (hits : List Hit) :
    (groupRec hits).map Prod.fst = dedupKeys (hits.map hitKey) := by
  induction hits using groupRec.induct with
  | case1 => simp [groupRec_nil, dedupKeys_nil]
  | case2 h t ih =>
    rw [groupRec_cons, List.map_cons, List.map_cons, dedupKeys_cons, ih,
      map_hitKey_filter_ne]

theorem mem_dedupKeys (a : String) (l : List String) : a ∈ dedupKeys l ↔ a ∈ l := by
  induction l using dedupKeys.induct with
  | case1 => simp [dedupKeys_nil]
  | case2 k t ih =>
    rw [dedupKeys_cons]
    simp only [List.mem_cons, ih, List.mem_filter, decide_eq_true_eq]
    by_cases hak : a = k <;> simp [hak]

theorem nodup_dedupKeys (l : List String) : (dedupKeys l).Nodup := by
  induction l using dedupKeys.induct with
  | case1 => simp [dedupKeys_nil]
  | case2 k t ih =>
    rw [dedupKeys_cons]
    refine List.nodup_cons.mpr ⟨?_, ih⟩
    intro hmem
    have hm := (mem_dedupKeys k _).mp hmem
    rcases List.mem_filter.mp hm with ⟨_, hne⟩
    simp at hne

theorem length_dedupKeys (l : List String) :
    (dedupKeys l).length = l.toFinset.card := by
  have hset : l.toFinset = (dedupKeys l).toFinset := by
    ext a
    simp [List.mem_toFinset, mem_dedupKeys]
  rw [hset, List.toFinset_card_of_nodup (nodup_dedupKeys l)]

theorem find?_filter_of_imp (l : List α) (p q : α → Bool)
    (hpq : ∀ x, q x = true → p x = true) :
    (l.filter p).find? q = l.find? q := by
  induction l with
  | nil => simp
  | cons a t ih =>
    by_cases hq : q a = true
    · rw [List.filter_cons_of_pos (hpq a hq), List.find?_cons_of_pos _ hq,
        List.find?_cons_of_pos _ hq]
    · by_cases hp : p a = true
      · rw [List.filter_cons_of_pos hp, List.find?_cons_of_neg _ hq,
          List.find?_cons_of_neg _ hq, ih]
      · rw [List.filter_cons_of_neg hp, List.find?_cons_of_neg _ hq, ih]

theorem groupRec_key_mem (hits : List Hit) (k : String) (r : RunInfo)
    (hmem : (k, r) ∈ groupRec hits) : k ∈ hits.map hitKey := by
  have hm : k ∈ (groupRec hits).map Prod.fst := List.mem_map_of_mem Prod.fst hmem
  rw [groupRec_keys] at hm
  exact (mem_dedupKeys k _).mp hm

/-- Every entry of the grouped runs holds exactly the benchmark sub-records
of the hits carrying its key, and its run-level metadata is copied from the
first such hit. -/
theorem groupRec_content (hits : List Hit) (k : String) (r : RunInfo) :
    (k, r) ∈ groupRec hits →
    r.benchmarks = (hits.filter (fun x => hitKey x = k)).map
        (fun x => benchmark_from_es_record x.source) ∧
    ∃ h, hits.find? (fun x => hitKey x == k) = some h ∧
      r.machine_info = h.source.machine_info ∧
      r.commit_info = h.source.commit_info ∧
      r.datetime = h.source.datetime ∧
      r.version = h.source.version := by
  induction hits using groupRec.induct with
  | case1 =>
    intro hmem
    simp [groupRec_nil] at hmem
  | case2 h t ih =>
    intro hmem
    rw [groupRec_cons] at hmem
    rcases List.mem_cons.mp hmem with heq | htail
    · rw [Prod.mk.injEq] at heq
      obtain ⟨hk, hr⟩ := heq
      subst hk
      subst hr
      constructor
      · rw [List.filter_cons_of_pos (by simp), List.map_cons]
      · exact ⟨h, List.find?_cons_of_pos _ (by simp), rfl, rfl, rfl, rfl⟩
    · have hkne : ¬k = hitKey h := by
        intro he
        have hmem2 := groupRec_key_mem _ _ _ htail
        rcases List.mem_map.mp hmem2 with ⟨x, hx, hxk⟩
        rcases List.mem_filter.mp hx with ⟨_, hne⟩
        simp only [decide_eq_true_eq] at hne
        exact hne (by rw [hxk, he])
      rcases ih htail with ⟨hbench, hfirst⟩
      have hfeq : (t.filter (fun x => hitKey x ≠ hitKey h)).filter
            (fun x => hitKey x = k) = t.filter (fun x => hitKey x = k) := by
        rw [List.filter_filter]
        apply List.filter_congr
        intro x _
        by_cases hxk : hitKey x = k
        · have hxh : hitKey x ≠ hitKey h := by
            rw [hxk]; exact hkne
          simp [hxk, hxh, hkne]
        · simp [hxk]
      constructor
      · rw [hbench, hfeq,
          List.filter_cons_of_neg
            (by simp only [decide_eq_true_eq]
                intro he; apply hkne; first | exact he | exact he.symm)]
      · rcases hfirst with ⟨hh, hfind, hm1, hm2, hm3, hm4⟩
        refine ⟨hh, ?_, hm1, hm2, hm3, hm4⟩
        rw [List.find?_cons_of_neg _
          (by simp only [beq_iff_eq]
              intro he; apply hkne; first | exact he | exact he.symm)]
        rw [← find?_filter_of_imp t (fun x => hitKey x ≠ hitKey h)
          (fun x => hitKey x == k) ?_]
        · exact hfind
        · intro x hx
          simp only [beq_iff_eq] at hx
          simp only [decide_eq_true_eq]
          rw [hx]
          exact hkne

/-- Full characterisation of a successful `load` body over an arbitrary hit
list: one pair per distinct key, correct benchmark contents, sorted
non-decreasing by parsed datetime. -/
theorem sortedRuns_spec (hs : List Hit)
    (hp : ∀ h ∈ hs, (strptime h.source.datetime).isSome = true) :
    ∃ l, sortedRuns hs = some l ∧
      l.length = (hs.map hitKey).toFinset.card ∧
      (l.map Prod.fst).Nodup ∧
      (∀ k, k ∈ l.map Prod.fst ↔ k ∈ hs.map hitKey) ∧
      (∀ k r, (k, r) ∈ l →
        r.benchmarks = (hs.filter (fun x => hitKey x = k)).map
          (fun x => benchmark_from_es_record x.source)) ∧
      l.Pairwise (fun a b => ∀ da db, strptime a.2.datetime = some da →
        strptime b.2.datetime = some db → da.toNat ≤ db.toNat) := by
  have hgr := group_eq_groupRec hs
  have hall : (group_by_commit_and_time hs).all
      (fun x => (strptime x.2.datetime).isSome) = true := by
    rw [List.all_eq_true]
    intro x hx
    rw [hgr] at hx
    rcases groupRec_content hs x.1 x.2 hx with ⟨_, hh, hfind, _, _, hdt, _⟩
    show (strptime x.2.datetime).isSome = true
    rw [hdt]
    exact hp hh (List.mem_of_find?_eq_some hfind)
  refine ⟨sortLe (fun a b => decide (runKey a ≤ runKey b))
    (group_by_commit_and_time hs), ?_, ?_, ?_, ?_, ?_, ?_⟩
  · unfold sortedRuns
    rw [if_pos hall]
  · rw [(perm_sortLe _ _).length_eq, hgr,
      ← List.length_map (groupRec hs) Prod.fst, groupRec_keys, length_dedupKeys]
  · have hnd : ((group_by_commit_and_time hs).map Prod.fst).Nodup := by
      rw [hgr, groupRec_keys]
      exact nodup_dedupKeys _
    exact (((perm_sortLe _ _).map Prod.fst).symm).nodup hnd
  · intro k
    rw [((perm_sortLe _ _).map Prod.fst).mem_iff, hgr, groupRec_keys, mem_dedupKeys]
  · intro k r hkr
    have hm := (perm_sortLe _ _).mem_iff.mp hkr
    rw [hgr] at hm
    exact (groupRec_content hs k r hm).1
  · have hpw := pairwise_sortLe (fun a b => decide (runKey a ≤ runKey b))
      (fun a b c hab hbc => by
        simp only [decide_eq_true_eq] at hab hbc ⊢
        exact Nat.le_trans hab hbc)
      (fun a b => by
        simp only [decide_eq_true_eq]
        exact Nat.le_total (runKey a) (runKey b))
      (group_by_commit_and_time hs)
    refine hpw.imp ?_
    intro a b hab da db hda hdb
    have hle := of_decide_eq_true hab
    simp only [runKey, hda, hdb, Option.getD_some] at hle
    exact hle

/-- Membership in the modelled engine's answer implies membership in the
boolean-query filter of the stored documents. -/
theorem engineSearch_mem_filter (stored : List Hit) (body : Json) (n : Nat) (proj : String)
    (hsz : bodySize body = some n) (htm : bodyTermProject body = some proj) (h : Hit)
    (hm : h ∈ engineSearch stored body) :
    h ∈ stored.filter (fun x =>
      x.source.commit_info.project == proj &&
      (match bodyIdPfx body with
       | some p => strIsPfxOf p x.id
       | none => true)) := by
  unfold engineSearch at hm
  rw [hsz, htm] at hm
  simp only [] at hm
  have hm2 := List.take_subset _ _ hm
  by_cases hc : bodySortDescByDatetime body = true
  · rw [if_pos hc] at hm2
    exact ((perm_sortLe _ _).mem_iff).mp hm2
  · rw [if_neg hc] at hm2
    exact hm2

/-! ## Claim theorems -/

/-- C1: for every project whose search hits span `K` distinct keys of the
form `commit_info.id ++ "_" ++ datetime`, `load(project)` yields exactly
`K` (key, run-record) pairs; each record's benchmarks list holds exactly
the benchmark sub-records of the hits whose composed key equals that
record's key (hits sharing a key merge into one run, never a new one); and
the yielded sequence is sorted non-decreasing by the record's datetime
parsed with the format `%Y-%m-%dT%H:%M:%S.%f`. -/
theorem load_groups_merges_sorts (st : Store) (stored : List Hit) (project : String)
    (hp : ∀ h ∈ (searchES st stored project none).1,
      (strptime h.source.datetime).isSome = true) :
    ∃ l, (load st stored project none).1 = some l ∧
      l.length = ((searchES st stored project none).1.map hitKey).toFinset.card ∧
      (l.map Prod.fst).Nodup ∧
      (∀ k, k ∈ l.map Prod.fst ↔ k ∈ (searchES st stored project none).1.map hitKey) ∧
      (∀ k r, (k, r) ∈ l →
        r.benchmarks = ((searchES st stored project none).1.filter
            (fun x => hitKey x = k)).map (fun x => benchmark_from_es_record x.source)) ∧
      l.Pairwise (fun a b => ∀ da db, strptime a.2.datetime = some da →
        strptime b.2.datetime = some db → da.toNat ≤ db.toNat) :=
  sortedRuns_spec (searchES st stored project none).1 hp

/-- C2: `query(project)` is exactly the projection of the pairs yielded by
`load(project)` (with no id prefix) onto their keys, in the same order —
and it raises exactly when `load` raises. -/
theorem query_is_load_keys (st : Store) (stored : List Hit) (project : String) :
    (query st stored project).1
      = ((load st stored project none).1).map (fun l => l.map Prod.fst) := rfl

/-- C5: `load_benchmarks(project)` yields one benchmark record per search
hit, in the engine's result order (no grouping, no local re-sorting), each
holding exactly the seven fields `group`, `stats`, `options`, `param`,
`name`, `params`, `fullname` copied from the hit's source document. -/
theorem load_benchmarks_native_order (st : Store) (stored : List Hit) (project : String) :
    (load_benchmarks st stored project).1.length
        = (searchES st stored project none).1.length ∧
    ∀ (i : Nat) (h : Hit), (searchES st stored project none).1[i]? = some h →
      (load_benchmarks st stored project).1[i]?
        = some (Benchmark.mk h.source.group h.source.stats h.source.options
            h.source.param h.source.name h.source.params h.source.fullname) := by
  constructor
  · show ((searchES st stored project none).1.map
      (fun h => benchmark_from_es_record h.source)).length = _
    rw [List.length_map]
  · intro i h hi
    show ((searchES st stored project none).1.map
      (fun h => benchmark_from_es_record h.source))[i]? = _
    rw [List.getElem?_map, hi]
    rfl

/-- C6: if any grouped run record's datetime string does not match the
format, iterating `load(project)` raises from the sort step — modelled as
the `none` result — and no pairs are yielded; the exception is not caught,
translated or defaulted. -/
theorem load_malformed_datetime_raises (st : Store) (stored : List Hit) (project : String)
    (k : String) (r : RunInfo)
    (hmem : (k, r) ∈ group_by_commit_and_time (searchES st stored project none).1)
    (hbad : strptime r.datetime = none) :
    (load st stored project none).1 = none := by
  show sortedRuns (searchES st stored project none).1 = none
  have hfalse : ¬((group_by_commit_and_time (searchES st stored project none).1).all
      (fun x => (strptime x.2.datetime).isSome) = true) := by
    intro hall
    rw [List.all_eq_true] at hall
    have hx := hall (k, r) hmem
    simp only [hbad, Option.isSome_none] at hx
    cases hx
  unfold sortedRuns
  rw [if_neg hfalse]

/-- C8: when the elasticsearch client library cannot be imported, the
constructor raises an `ImportError` carrying the original arguments and the
actionable install hint, before any field assignment or external activity
(no effects), and no store object is produced. -/
theorem init_import_failure (importErrMsg : String) (hosts : List String)
    (index doctype logger : String) (dmi : Option String)
    (createOutcome : CreateIndexResult) :
    storeInit false importErrMsg hosts index doctype logger dmi createOutcome
      = (Except.error (.importFailure [importErrMsg, installHint]), []) ∧
    installHint = "Please install elasticsearch or pytest-benchmark[elasticsearch]" :=
  ⟨rfl, rfl⟩

/-- C9: `save(document, id)` passes the document through verbatim to the
engine's index call under exactly the given id and the configured index and
doc-type; and no public operation mutates the store object — in particular
the `_cache` field stays the empty dict the constructor assigned. -/
theorem save_verbatim_and_no_mutation (st : Store) (document : Json)
    (document_id : String) (stored : List Hit) (project : String) (pfx : Option String) :
    save st document document_id
      = ({ index := st.elasticsearch_index, doc_type := st.elasticsearch_doctype,
           body := document, id := document_id }, st) ∧
    (query st stored project).2 = st ∧
    (load st stored project pfx).2 = st ∧
    (load_benchmarks st stored project).2 = st ∧
    ∀ (importErrMsg : String) (hosts : List String) (index doctype logger : String)
      (dmi : Option String),
      (storeInit true importErrMsg hosts index doctype logger dmi .success).1
        = Except.ok (Store.mk hosts index doctype dmi logger []) :=
  ⟨rfl, rfl, rfl, rfl, fun _ _ _ _ _ _ => rfl⟩

/-- C10: when several hits share one commit-id+datetime key, the merged run
record's run-level metadata (machine info, commit info, datetime, version)
comes solely from the first such hit in engine result order; later hits'
metadata is dropped, whatever it contains. -/
theorem run_metadata_from_first_hit (st : Store) (stored : List Hit) (project : String)
    (pfx : Option String) (l : List (String × RunInfo)) (k : String) (r : RunInfo)
    (hl : (load st stored project pfx).1 = some l) (hmem : (k, r) ∈ l) :
    ∃ h, (searchES st stored project pfx).1.find? (fun x => hitKey x == k) = some h ∧
      r.machine_info = h.source.machine_info ∧ r.commit_info = h.source.commit_info ∧
      r.datetime = h.source.datetime ∧ r.version = h.source.version := by
  have hl2 : sortedRuns (searchES st stored project pfx).1 = some l := hl
  simp only [sortedRuns] at hl2
  split at hl2
  · have hleq := Option.some.inj hl2
    rw [← hleq] at hmem
    have hmem2 := (perm_sortLe _ _).mem_iff.mp hmem
    rw [group_eq_groupRec] at hmem2
    exact (groupRec_content _ k r hmem2).2
  · cases hl2

/-- C3: every search request built by `load`, `query` and `load_benchmarks`
has size exactly 1000 (results truncate at 1000, no pagination), asks for
descending sort on `datetime`, and filters by exact term match of
`commit_info.project` against the given project; a prefix clause on the
document `_id` is included if and only if a non-empty id prefix argument
was supplied. -/
theorem search_request_shape (project : String) (pfx : Option String)
    (st : Store) (stored : List Hit) :
    bodySize (searchBody project pfx) = some 1000 ∧
    bodySortDescByDatetime (searchBody project pfx) = true ∧
    bodyTermProject (searchBody project pfx) = some project ∧
    bodyIdPfx (searchBody project pfx) = (if truthy pfx then pfx else none) ∧
    (engineSearch stored (searchBody project pfx)).length ≤ 1000 ∧
    (load st stored project pfx).1
      = sortedRuns (engineSearch stored (searchBody project pfx)) ∧
    (query st stored project).1
      = (sortedRuns (engineSearch stored (searchBody project none))).map
          (fun l => l.map Prod.fst) ∧
    (load_benchmarks st stored project).1
      = (engineSearch stored (searchBody project none)).map
          (fun h => benchmark_from_es_record h.source) := by
  have hterm : bodyTermProject (searchBody project pfx) = some project := by
    rcases pfx with _ | p
    · rfl
    · unfold searchBody
      simp only []
      cases hp : p.isEmpty
      all_goals rfl
  have hpfx : bodyIdPfx (searchBody project pfx) = (if truthy pfx then pfx else none) := by
    rcases pfx with _ | p
    · rfl
    · cases hp : p.isEmpty
      all_goals unfold searchBody truthy
      all_goals simp only []
      all_goals simp only [hp]
      all_goals rfl
  refine ⟨rfl, rfl, hterm, hpfx, ?_, rfl, rfl, rfl⟩
  unfold engineSearch
  rw [show bodySize (searchBody project pfx) = some 1000 from rfl, hterm]
  simp only []
  rw [List.length_take]
  exact Nat.min_le_left _ _

/-- C4: with any supplied prefix, every hit answering the search — and so
every benchmark of every yielded record — comes from a stored document
whose identifier starts with that prefix; and a supplied empty prefix
yields exactly the same sequence as an absent one (the unfiltered project
set). -/
theorem load_id_pfx_filters (st : Store) (stored : List Hit) (project p : String) :
    (∀ h ∈ (searchES st stored project (some p)).1, strIsPfxOf p h.id = true) ∧
    (∀ l, (load st stored project (some p)).1 = some l →
      ∀ k r, (k, r) ∈ l → ∀ b ∈ r.benchmarks,
        ∃ h, h ∈ (searchES st stored project (some p)).1 ∧
          strIsPfxOf p h.id = true ∧ b = benchmark_from_es_record h.source) ∧
    (load st stored project (some "")).1 = (load st stored project none).1 := by
  have h1 : ∀ h ∈ (searchES st stored project (some p)).1, strIsPfxOf p h.id = true := by
    intro h hm
    by_cases hp : p.isEmpty
    · have hpe := (String.isEmpty_iff p).mp hp
      subst hpe
      simp [strIsPfxOf]
    · rw [Bool.not_eq_true] at hp
      have hpfx : bodyIdPfx (searchBody project (some p)) = some p := by
        unfold searchBody
        simp only []
        simp only [hp]
        rfl
      have hterm : bodyTermProject (searchBody project (some p)) = some project := by
        unfold searchBody
        simp only []
        simp only [hp]
        rfl
      have hmem := engineSearch_mem_filter stored (searchBody project (some p))
        1000 project rfl hterm h hm
      rcases List.mem_filter.mp hmem with ⟨_, hcond⟩
      rw [hpfx] at hcond
      exact ((Bool.and_eq_true _ _).mp hcond).2
  refine ⟨h1, ?_, ?_⟩
  · intro l hl k r hkr b hb
    have hl2 : sortedRuns (searchES st stored project (some p)).1 = some l := hl
    simp only [sortedRuns] at hl2
    split at hl2
    · have hleq := Option.some.inj hl2
      rw [← hleq] at hkr
      have hm2 := (perm_sortLe _ _).mem_iff.mp hkr
      rw [group_eq_groupRec] at hm2
      have hbench := (groupRec_content _ k r hm2).1
      rw [hbench] at hb
      rcases List.mem_map.mp hb with ⟨x, hx, hbx⟩
      have hxmem := List.mem_of_mem_filter hx
      exact ⟨x, hxmem, h1 x hxmem, hbx.symm⟩
    · cases hl2
  · show sortedRuns (engineSearch stored (searchBody project (some "")))
      = sortedRuns (engineSearch stored (searchBody project none))
    rfl

/-- C7 (counterexample): an index-creation failure other than the
already-exists one, but likewise reported with HTTP status 400 — here an
invalid index name — is also silently ignored instead of propagating. -/
theorem create_index_other_400_ignored :
    create_index (CreateIndexResult.error 400 "invalid_index_name_exception")
        = Except.ok () ∧
    CreateIndexResult.error 400 "invalid_index_name_exception"
      ≠ CreateIndexResult.error 400 "index_already_exists_exception" :=
  ⟨rfl, by decide⟩

/-- C7 (amended): during construction the index-creation call ignores any
failure reported with HTTP status 400 — among them the index-already-exists
failure, so constructing against an already-provisioned index raises no
error — while a failure with any other status propagates to the caller. -/
theorem storeInit_create_index_policy (importErrMsg : String) (hosts : List String)
    (index doctype logger : String) (dmi : Option String) :
    (∀ reason, (storeInit true importErrMsg hosts index doctype logger dmi
        (CreateIndexResult.error 400 reason)).1
      = Except.ok (Store.mk hosts index doctype dmi logger [])) ∧
    (∀ status reason, status ≠ 400 →
      (storeInit true importErrMsg hosts index doctype logger dmi
          (CreateIndexResult.error status reason)).1
        = Except.error (.createFailure (CreateIndexResult.error status reason))) ∧
    (storeInit true importErrMsg hosts index doctype logger dmi
        CreateIndexResult.success).1
      = Except.ok (Store.mk hosts index doctype dmi logger []) := by
  refine ⟨fun reason => rfl, ?_, rfl⟩
  intro status reason hstat
  simp [storeInit, create_index, indicesCreate, hstat]


/-! ## Concrete evaluations of the theorems with hypotheses -/

/-- Evaluation of `load_groups_merges_sorts` on three concrete hits
spanning two keys, the parse hypothesis discharged by computation. -/
theorem load_groups_merges_sorts_witness :
    (∀ h ∈ (searchES wStore wHits "proj" none).1,
      (strptime h.source.datetime).isSome = true) ∧
    (∃ l, (load wStore wHits "proj" none).1 = some l ∧
      l.length = ((searchES wStore wHits "proj" none).1.map hitKey).toFinset.card ∧
      (l.map Prod.fst).Nodup ∧
      (∀ k, k ∈ l.map Prod.fst ↔ k ∈ (searchES wStore wHits "proj" none).1.map hitKey) ∧
      (∀ k r, (k, r) ∈ l →
        r.benchmarks = ((searchES wStore wHits "proj" none).1.filter
            (fun x => hitKey x = k)).map (fun x => benchmark_from_es_record x.source)) ∧
      l.Pairwise (fun a b => ∀ da db, strptime a.2.datetime = some da →
        strptime b.2.datetime = some db → da.toNat ≤ db.toNat)) :=
  ⟨by decide, load_groups_merges_sorts wStore wHits "proj" (by decide)⟩

/-- Evaluation of `load_id_pfx_filters` at the prefix `"abc"`, which all
three fixture identifiers carry. -/
theorem load_id_pfx_filters_witness :
    strIsPfxOf "abc" wHitA.id = true ∧
    (∃ h, h ∈ (searchES wStore wHits "proj" (some "abc")).1 ∧
      strIsPfxOf "abc" h.id = true ∧
      wBench "n2" = benchmark_from_es_record h.source) ∧
    (load wStore wHits "proj" (some "")).1 = (load wStore wHits "proj" none).1 :=
  ⟨(load_id_pfx_filters wStore wHits "proj" "abc").1 wHitA (by decide),
   (load_id_pfx_filters wStore wHits "proj" "abc").2.1 wLoaded (by decide)
     "abc_2020-01-01T00:00:00.0" wRunBC (by decide) (wBench "n2") (by decide),
   (load_id_pfx_filters wStore wHits "proj" "abc").2.2⟩

/-- Evaluation of `load_benchmarks_native_order` at index 0: the engine
returns the Jan-2 hit first (descending sort) and `load_benchmarks` yields
its benchmark record there. -/
theorem load_benchmarks_native_order_witness :
    (searchES wStore wHits "proj" none).1[0]? = some wHitA ∧
    (load_benchmarks wStore wHits "proj").1[0]?
      = some (Benchmark.mk wHitA.source.group wHitA.source.stats wHitA.source.options
          wHitA.source.param wHitA.source.name wHitA.source.params wHitA.source.fullname) :=
  ⟨by decide, (load_benchmarks_native_order wStore wHits "proj").2 0 wHitA (by decide)⟩

/-- Evaluation of `load_malformed_datetime_raises` on a stored document
whose datetime string is `"not-a-date"`. -/
theorem load_malformed_datetime_raises_witness :
    ("abc_not-a-date", wBadRun)
        ∈ group_by_commit_and_time (searchES wStore [wBadHit] "proj" none).1 ∧
    strptime wBadRun.datetime = none ∧
    (load wStore [wBadHit] "proj" none).1 = none :=
  ⟨by decide, by decide,
   load_malformed_datetime_raises wStore [wBadHit] "proj" "abc_not-a-date" wBadRun
     (by decide) (by decide)⟩

/-- Evaluation of `storeInit_create_index_policy`: a creation failure with
status 404 propagates out of the constructor. -/
theorem storeInit_create_index_policy_witness :
    (storeInit true "emsg" ["localhost"] "bench" "benchmark" "log" none
        (CreateIndexResult.error 404 "index_not_found_exception")).1
      = Except.error (.createFailure
          (CreateIndexResult.error 404 "index_not_found_exception")) :=
  (storeInit_create_index_policy "emsg" ["localhost"] "bench" "benchmark" "log"
    none).2.1 404 "index_not_found_exception" (by decide)

/-- Evaluation of `run_metadata_from_first_hit`: the Jan-1 run merged from
`wHitB` and `wHitC` carries the metadata of `wHitB` (machine `"m1"`), the
first hit with that key; `wHitC`’s differing machine `"m2"` is dropped. -/
theorem run_metadata_from_first_hit_witness :
    (load wStore wHits "proj" none).1 = some wLoaded ∧
    ("abc_2020-01-01T00:00:00.0", wRunBC) ∈ wLoaded ∧
    (∃ h, (searchES wStore wHits "proj" none).1.find?
        (fun x => hitKey x == "abc_2020-01-01T00:00:00.0") = some h ∧
      wRunBC.machine_info = h.source.machine_info ∧
      wRunBC.commit_info = h.source.commit_info ∧
      wRunBC.datetime = h.source.datetime ∧
      wRunBC.version = h.source.version) :=
  ⟨by decide, by decide,
   run_metadata_from_first_hit wStore wHits "proj" none wLoaded
     "abc_2020-01-01T00:00:00.0" wRunBC (by decide) (by decide)⟩

end ESBench
